import Mathlib

/-!
Verification development for the portfolio performance computation engine of
the `idea_index` repository (`backend/services/market_data_service.py`,
`backend/services/performance_service.py`, `backend/services/constants.py`).

Modelling conventions:
* Dates are day numbers (`Int`); the `YYYY-MM-DD` string formatting used by the
  Python code is a bijective rendering of a day and is not modelled.
* A pandas price series (a `DatetimeIndex` and float values) is a list of
  `(date, price)` pairs; float arithmetic is idealised as `ℚ` (and as `ℝ` where
  the code takes square roots or fractional powers).
* `np.random.normal` draws are modelled as an explicit stream `ℕ → ℚ` supplied
  as input, one draw per loop iteration that consumes one.
* Python `round(x, 2)` is modelled by `round2` below (round to nearest with
  ties away from the floor direction); every theorem either uses the same
  rounding on both sides of an equality or avoids exact half values, so the
  tie-breaking convention is never load-bearing.
* Python dicts are association lists `List (String × _)` in insertion order.
-/

abbrev Date := Int

abbrev PriceSeries := List (Date × ℚ)

/-- Association-list lookup, modelling Python dict / pandas label lookup. -/
def lookupA {κ α : Type} [DecidableEq κ] : List (κ × α) → κ → Option α
  | [], _ => none
  | (k, v) :: rest, key => if k = key then some v else lookupA rest key

/-- Date axis of a price series (`series.index`). -/
def datesOf (s : PriceSeries) : List Date := s.map Prod.fst

/-- Price of a series at a date (`series[date]`; total, only used at member dates). -/
def priceAt (s : PriceSeries) (d : Date) : ℚ := (lookupA s d).getD 0

/-- Python `round(x, 2)`. -/
def round2 (q : ℚ) : ℚ := (round (q * 100) : ℤ) / 100

/-- Python `round(x, 3)`. -/
def round3 (q : ℚ) : ℚ := (round (q * 1000) : ℤ) / 1000

/-- Monday-to-Friday test (`current_date.weekday() < 5`), day 0 taken as a Monday. -/
def isWeekday (d : Date) : Bool := d.emod 7 < 5

/-- Calendar days from `a` to `b` inclusive (the `while current_date <= end_date` loop). -/
def dateRange (a b : Date) : List Date := (List.range (b + 1 - a).toNat).map (fun k => a + k)

/-- Environment supplied by the outside world to the engine: the batch-fetch
result for the holdings' tickers, the fetched benchmark series (`none` models
a failed or empty fetch), the current date, and the random-draw streams used
by the two synthetic fallback generators. -/
structure Env where
  ticker_data : List (String × PriceSeries)
  benchmark : Option PriceSeries
  today : Date
  fallbackReturns : ℕ → ℚ
  benchReturns : ℕ → ℚ

/-- One holding as consumed by the engine: `ticker` is `none` when the field is
missing, `weight` is the caller-supplied percentage. -/
structure Holding where
  ticker : Option String
  weight : ℚ
  country : Option String
deriving DecidableEq

/-- Output dict of `calculate_portfolio_performance` / `_calculate_weighted_performance`
and of `_generate_fallback_data` (keys `dates`, `index_values`, `portfolio_values`). -/
structure PerfData where
  dates : List Date
  index_values : List ℚ
  portfolio_values : List ℚ
deriving DecidableEq

/-! ## Sampling policy (`get_optimal_interval`, `sample_data_for_performance`) -/

/-- Embeds `MarketDataService.get_optimal_interval`. -/
def get_optimal_interval (months : ℕ) : String :=
  if 60 ≤ months then "1wk"
  else if 36 ≤ months then "1wk"
  else if 12 ≤ months then "1d"
  else if 6 ≤ months then "1d"
  else "1d"

/-- Rows at indices 0, 2, 4, ... (`data.iloc[::2]`). -/
def everySecond {α : Type} : List α → List α
  | [] => []
  | [a] => [a]
  | a :: _ :: rest => a :: everySecond rest

/-- Embeds `MarketDataService.sample_data_for_performance` (the `except` branch
returns the data unchanged and is unreachable for list data). -/
def sample_data_for_performance (data : PriceSeries) (months : ℕ) : PriceSeries :=
  if data = [] then data
  else if 60 ≤ months then data
  else if 36 ≤ months then data
  else if 12 ≤ months then everySecond data
  else if 6 ≤ months then everySecond data
  else data

/-! ## Synthetic fallback generators (`_generate_fallback_data`, `_generate_fallback_benchmark`) -/

/-- The random-walk loop body shared by both fallback generators: starting from
`v`, repeatedly do `v := v * (1 + r)` with the next draw `r` and record
`round2 v`.  `k` is the index of the next draw, `n` the number of steps left. -/
def walk_values (rs : ℕ → ℚ) (v : ℚ) (k : ℕ) : ℕ → List ℚ
  | 0 => []
  | n + 1 =>
    let v₁ := v * (1 + rs k)
    round2 v₁ :: walk_values rs v₁ (k + 1) n

/-- Business days walked by `_generate_fallback_data`: every weekday from
`today - months*30` to `today`. -/
def generate_fallback_dates (today : Date) (months : ℕ) : List Date :=
  (dateRange (today - (months : ℤ) * 30) today).filter (fun d => isWeekday d)

/-- Embeds `MarketDataService._generate_fallback_data`: one random step per
business day, starting from 100.0, each recorded value rounded to 2 decimals.
Note the first recorded value is `round2 (100 * (1 + r₀))`, not 100. -/
def generate_fallback_data (env : Env) (months : ℕ) : PerfData :=
  let ds := generate_fallback_dates env.today months
  let vs := walk_values env.fallbackReturns 100 0 ds.length
  ⟨ds, vs, vs⟩

/-- Embeds `MarketDataService._generate_fallback_benchmark`. -/
def generate_fallback_benchmark (rs : ℕ → ℚ) (num_points : ℕ) : List ℚ :=
  walk_values rs 100 0 num_points

/-! ## Composite aggregator (`_calculate_weighted_performance`) -/

/-- Ticker/weight extraction loop of `calculate_portfolio_performance` (and of
`calculate_portfolio_metrics`): keep holdings with a truthy ticker and positive
weight, in order, converting the percentage weight to a fraction. -/
def extract_holdings : List Holding → List String × List ℚ
  | [] => ([], [])
  | h :: rest =>
    let r := extract_holdings rest
    match h.ticker with
    | some t => if t ≠ "" ∧ 0 < h.weight then (t :: r.1, h.weight / 100 :: r.2) else r
    | none => r

/-- First loop of `_calculate_weighted_performance`: per requested ticker, keep
the fetched non-empty price series, sampled per the sampling policy
(`ticker_prices` in the source, in insertion order). -/
def buildTickerPrices (td : List (String × PriceSeries)) (months : ℕ) :
    List String → List (String × PriceSeries)
  | [] => []
  | t :: ts =>
    match lookupA td t with
    | none => buildTickerPrices td months ts
    | some s =>
      if s = [] then buildTickerPrices td months ts
      else (t, sample_data_for_performance s months) :: buildTickerPrices td months ts

/-- The `all_dates` accumulation of `_calculate_weighted_performance`: `none`
models the Python `None` (no ticker contributed); otherwise the running
intersection of the date axes, in first-axis order. -/
def interAxes : List (String × PriceSeries) → Option (List Date)
  | [] => none
  | (_, s) :: rest =>
    some (rest.foldl (fun acc ts => acc.filter (fun d => d ∈ datesOf ts.2)) (datesOf s))

/-- The per-date accumulation loop of `_calculate_weighted_performance`:
`(portfolio_value, total_weight)` summed over the tickers (with their
enumeration index `i` into `weights`) that have a fetched series containing
the date `d`. -/
def sum_at (tp : List (String × PriceSeries)) (ws : List ℚ) (d : Date) :
    List String → ℕ → ℚ × ℚ
  | [], _ => (0, 0)
  | t :: ts, i =>
    let rest := sum_at tp ws d ts (i + 1)
    match lookupA tp t with
    | some s =>
      match lookupA s d with
      | some price => (price * ws.getD i 0 + rest.1, ws.getD i 0 + rest.2)
      | none => rest
    | none => rest

/-- Portfolio value recorded for one date: divide by the total present weight
when it is positive (`if total_weight > 0` in the source). -/
def value_at (tp : List (String × PriceSeries)) (tickers : List String) (ws : List ℚ)
    (d : Date) : ℚ :=
  let s := sum_at tp ws d tickers 0
  if 0 < s.2 then s.1 / s.2 else s.1

/-- Normalisation to a base of 100 with 2-decimal rounding, shared by the
composite (`_calculate_weighted_performance`) and the benchmark aligner
(`fetch_benchmark_performance`). -/
def normalize_to_100 (vs : List ℚ) : List ℚ :=
  vs.map (fun v => round2 (v / vs.headD 0 * 100))

/-- Embeds `MarketDataService._calculate_weighted_performance`.  The
`not ticker_prices` guard of the source is subsumed by the `none` case of
`interAxes` (the two are set together in the same loop). -/
def calculate_weighted_performance (env : Env) (td : List (String × PriceSeries))
    (tickers : List String) (weights : List ℚ) (months : ℕ) : PerfData :=
  let tp := buildTickerPrices td months tickers
  match interAxes tp with
  | none => generate_fallback_data env months
  | some all_dates =>
    if all_dates.length < 10 then generate_fallback_data env months
    else
      let sorted := List.insertionSort (· ≤ ·) all_dates
      let target := min (months * 21) sorted.length
      let kept := if target = 0 then sorted else sorted.drop (sorted.length - target)
      let pvals := kept.map (value_at tp tickers weights)
      if pvals = [] then generate_fallback_data env months
      else ⟨kept, normalize_to_100 pvals, pvals.map round2⟩

/-- Embeds `MarketDataService.calculate_portfolio_performance`, with the
network fetch abstracted into `env.ticker_data` (the batch-fetch result). -/
def calculate_portfolio_performance (env : Env) (holdings : List Holding)
    (months : ℕ) : PerfData :=
  let tw := extract_holdings holdings
  if tw.1 = [] then generate_fallback_data env months
  else if env.ticker_data = [] then generate_fallback_data env months
  else calculate_weighted_performance env env.ticker_data tw.1 tw.2 months

/-- Number of dates common to all tickers that produced data: 0 when no ticker
produced any data, otherwise the length of the running intersection. -/
def common_date_count (td : List (String × PriceSeries)) (tickers : List String)
    (months : ℕ) : ℕ :=
  match interAxes (buildTickerPrices td months tickers) with
  | none => 0
  | some ds => ds.length

/-! ## Benchmark aligner (`fetch_benchmark_performance`) -/

/-- Benchmark date closest to `d` (`min(available_dates, key=abs-day-distance)`:
first minimiser wins on ties).  The `[]` case is unreachable behind the
non-empty guard of `fetch_benchmark_performance`. -/
def closest_date (axis : List Date) (d : Date) : Date :=
  match axis with
  | [] => d
  | x :: xs => xs.foldl (fun best y => if (y - d).natAbs < (best - d).natAbs then y else best) x

/-- The alignment loop of `fetch_benchmark_performance`: for each composite
date take the benchmark price at the closest benchmark date when within 3
days, else the previously recorded value (or the series' first price when
nothing has been recorded yet). -/
def alignLoop (prices : PriceSeries) (dates : List Date) : List ℚ :=
  dates.foldl
    (fun acc d =>
      let cd := closest_date (datesOf prices) d
      let v :=
        if (cd - d).natAbs ≤ 3 then priceAt prices cd
        else
          match acc.getLast? with
          | some prev => prev
          | none => (prices.headD (0, 0)).2
      acc ++ [v])
    []

/-- Embeds `MarketDataService.fetch_benchmark_performance`, the fetch of the
benchmark series abstracted into `env.benchmark` (`none` models a failed or
empty fetch, which the source receives as `None`). -/
def fetch_benchmark_performance (env : Env) (dates : List Date) (months : ℕ) : List ℚ :=
  if dates = [] then []
  else
    match env.benchmark with
    | none => generate_fallback_benchmark env.benchReturns dates.length
    | some bs =>
      if bs = [] then generate_fallback_benchmark env.benchReturns dates.length
      else
        let prices := sample_data_for_performance bs months
        let bvals := alignLoop prices dates
        if bvals = [] then generate_fallback_benchmark env.benchReturns dates.length
        else normalize_to_100 bvals

/-! ## Benchmark selection (`constants.get_benchmark_for_portfolio`) -/

/-- The `BENCHMARK_MAP` of `constants.py` as `(country, (name, ticker))` pairs. -/
def benchmark_map : List (String × String × String) :=
  [("AR", "S&P MERVAL", "^MERV"), ("BR", "IBOVESPA", "^BVSP"),
   ("CA", "S&P/TSX Composite", "^GSPTSE"), ("CL", "S&P/CLX IPSA", "^IPSA"),
   ("MX", "IPC MEXICO", "^MXX"), ("US", "S&P 500", "^GSPC"),
   ("AT", "ATX", "^ATX"), ("BE", "BEL 20", "^BFX"),
   ("CZ", "PX Index", "PX.PR"), ("DK", "OMX Copenhagen 25", "^OMXC25"),
   ("FI", "OMX Helsinki 25", "^OMXH25"), ("FR", "CAC 40", "^FCHI"),
   ("DE", "DAX", "^GDAXI"), ("GR", "Athex Composite", "^ATG"),
   ("HU", "BUX", "^BUX"), ("IE", "ISEQ 20", "^ISEQ"),
   ("IT", "FTSE MIB", "FTSEMIB.MI"), ("NL", "AEX", "^AEX"),
   ("NO", "OBX Index", "^OBX"), ("PL", "WIG20", "^WIG20"),
   ("PT", "PSI 20", "PSI20.LS"), ("RU", "MOEX Russia Index", "IMOEX.ME"),
   ("ES", "IBEX 35", "^IBEX"), ("SE", "OMX Stockholm 30", "^OMX"),
   ("CH", "Swiss Market Index", "^SSMI"), ("TR", "BIST 100", "XU100.IS"),
   ("GB", "FTSE 100", "^FTSE"), ("AU", "S&P/ASX 200", "^AXJO"),
   ("CN", "Shanghai Composite", "000001.SS"), ("HK", "Hang Seng Index", "^HSI"),
   ("IN", "NIFTY 50", "^NSEI"), ("ID", "Jakarta Composite", "^JKSE"),
   ("JP", "Nikkei 225", "^N225"), ("MY", "FTSE Bursa Malaysia KLCI", "^KLSE"),
   ("NZ", "S&P/NZX 50", "^NZ50"), ("PK", "KSE 100", "^KSE"),
   ("PH", "PSEi Composite", "PSEI.PS"), ("SG", "Straits Times Index", "^STI"),
   ("KR", "KOSPI Composite", "^KS11"), ("LK", "CSE All-Share", "^CSE"),
   ("TW", "TSEC Weighted Index", "^TWII"), ("TH", "SET Index", "^SET.BK"),
   ("VN", "VN-Index", "^VNINDEX"), ("EG", "EGX 30", "^CASE30"),
   ("IL", "TA-35", "^TA35"), ("QA", "QE Index", "QSI.QA"),
   ("SA", "Tadawul All Share", "^TASI.SR"), ("ZA", "FTSE/JSE Top 40", "^J200.JO"),
   ("AE", "DFM General", "DFMGI.AE")]

/-- Country-code cleanup of `get_benchmark_for_portfolio` (codes longer than 2
characters default to `"US"`, otherwise upper-cased). -/
def normalize_country (c : String) : String := if 2 < c.length then "US" else c.toUpper

/-- The distinct cleaned countries of the holdings (the Python `set`, modelled
as a deduplicated list; only its size and sole element are ever consumed). -/
def collect_countries (holdings : List Holding) : List String :=
  holdings.foldl
    (fun acc h =>
      match h.country with
      | none => acc
      | some c =>
        let cc := normalize_country c
        if cc ∈ acc then acc else acc ++ [cc])
    []

/-- Embeds `constants.get_benchmark_for_portfolio`, returning `(name, ticker)`. -/
def get_benchmark_for_portfolio (holdings : List Holding) : String × String :=
  if holdings = [] then ("S&P 500", "^GSPC")
  else
    let cs := collect_countries holdings
    if cs.length = 1 then
      match lookupA benchmark_map (cs.headD "") with
      | some nt => nt
      | none => ("S&P 500", "^GSPC")
    else ("S&P 500", "^GSPC")

/-! ## Orchestrator (`PerformanceService.generate_performance_data`) -/

/-- Response payload of `generate_performance_data` on its non-`None` path. -/
structure Payload where
  dates : List Date
  index_values : List ℚ
  benchmark_values : List ℚ
  benchmark_name : String
  benchmark_ticker : String

/-- Embeds `PerformanceService.generate_performance_data`.  The result is
`Option Payload` because the function body's final fallback
(`_generate_mock_performance_data`) is commented out in the source, so the
fallback path returns Python `None` — modelled as `none`.  On the real-data
branch `calculate_portfolio_performance` always returns a dict containing
`dates` and `index_values` (its own failures already produce the synthetic
fallback dict), so that branch always returns a payload. -/
def generate_performance_data (env : Env) (holdings : List Holding) (months : ℕ)
    (use_real_data : Bool) : Option Payload :=
  let bi := get_benchmark_for_portfolio holdings
  if use_real_data ∧ holdings ≠ [] then
    let pd := calculate_portfolio_performance env holdings months
    let bvals := fetch_benchmark_performance env pd.dates months
    some ⟨pd.dates, pd.index_values, bvals, bi.1, bi.2⟩
  else none

/-! ## Statistics engine (`calculate_real_performance_stats`, `generate_stats`) -/

/-- Daily returns `np.diff(prices) / prices[:-1]`. -/
def dailyReturns (ps : List ℚ) : List ℚ :=
  List.zipWith (fun prev next => (next - prev) / prev) ps ps.tail

/-- Arithmetic mean (0 for the empty list, matching `sum/len` conventions used
only behind non-empty guards). -/
def meanQ (xs : List ℚ) : ℚ := xs.sum / xs.length

/-- Population variance (`np.var` / `np.std`, default `ddof=0`). -/
def varPop (xs : List ℚ) : ℚ :=
  (xs.map (fun x => (x - meanQ xs) ^ 2)).sum / xs.length

/-- Sample covariance (`np.cov`, default `ddof=1`). -/
def covSample (xs ys : List ℚ) : ℚ :=
  (List.zipWith (fun x y => (x - meanQ xs) * (y - meanQ ys)) xs ys).sum / (xs.length - 1)

/-- Population covariance (the `ddof=0` analogue, used to state what a single
consistent variance convention would produce). -/
def covPop (xs ys : List ℚ) : ℚ :=
  (List.zipWith (fun x y => (x - meanQ xs) * (y - meanQ ys)) xs ys).sum / xs.length

/-- Helper for `runningMax`: running maximum continued from current peak `m`. -/
def runningMaxAux (m : ℚ) : List ℚ → List ℚ
  | [] => []
  | y :: ys => max m y :: runningMaxAux (max m y) ys

/-- Running maximum `np.maximum.accumulate`. -/
def runningMax : List ℚ → List ℚ
  | [] => []
  | x :: xs => x :: runningMaxAux x xs

/-- Minimum of a list of rationals (`np.min`; 0 on the empty list, which only
occurs behind non-empty guards). -/
def listMin : List ℚ → ℚ
  | [] => 0
  | x :: xs => xs.foldl min x

/-- The beta computed by `calculate_real_performance_stats` when all its guards
pass: `np.cov(r, r_b)[0,1] / np.var(r_b)` — a sample covariance divided by a
population variance. -/
def beta_of (p : List ℚ) (bd : Option (List ℚ)) : Option ℚ :=
  match bd with
  | none => none
  | some b =>
    if b ≠ [] ∧ b.length = p.length then
      let r := dailyReturns p
      let rb := dailyReturns b
      if rb.length = r.length ∧ 1 < rb.length then
        if 0 < varPop rb then some (covSample r rb / varPop rb) else none
      else none
    else none

/-- Python `round(x, 2)` on the real-valued quantities. -/
noncomputable def round2R (x : ℝ) : ℝ := (round (x * 100) : ℤ) / 100

/-- Python `round(x, 3)` on the real-valued quantities. -/
noncomputable def round3R (x : ℝ) : ℝ := (round (x * 1000) : ℤ) / 1000

/-- The `total_return` of `calculate_real_performance_stats` (before rounding). -/
def total_return_of (p : List ℚ) : ℚ := (p.getLastD 0 / p.headD 0 - 1) * 100

/-- The `years` quantity `trading_days / 252`. -/
def years_of (p : List ℚ) : ℚ := (p.length : ℚ) / 252

/-- The `annualized_return`: `((p_last/p_first) ** (1/years) - 1) * 100`
(the `else` branch is unreachable behind the length guard but embedded). -/
noncomputable def annualized_return_of (p : List ℚ) : ℝ :=
  if 0 < years_of p then
    (((p.getLastD 0 / p.headD 0 : ℚ) : ℝ) ^ ((1 : ℝ) / ((years_of p : ℚ) : ℝ)) - 1) * 100
  else ((total_return_of p : ℚ) : ℝ)

/-- The annualised `volatility`: `np.std(daily_returns) * sqrt(252) * 100`,
0 when there are no daily returns. -/
noncomputable def volatility_of (p : List ℚ) : ℝ :=
  if 0 < (dailyReturns p).length then
    Real.sqrt ((varPop (dailyReturns p) : ℚ) : ℝ) * Real.sqrt 252 * 100
  else 0

/-- The `max_drawdown`: `min((p - peak) / peak * 100)`. -/
def max_drawdown_of (p : List ℚ) : ℚ :=
  listMin (List.zipWith (fun x pk => (x - pk) / pk * 100) p (runningMax p))

/-- The `sharpe_ratio` (0 when volatility is not positive). -/
noncomputable def sharpe_ratio_of (p : List ℚ) (rf : ℚ) : ℝ :=
  if 0 < volatility_of p then
    (annualized_return_of p - (rf : ℝ) * 100) / volatility_of p
  else 0

/-- The `sortino_ratio`: like Sharpe over the downside deviation; equal to the
Sharpe ratio when there is no negative daily return. -/
noncomputable def sortino_ratio_of (p : List ℚ) (rf : ℚ) : ℝ :=
  let negs := (dailyReturns p).filter (fun r => r < 0)
  if negs ≠ [] then
    let dd := Real.sqrt ((varPop negs : ℚ) : ℝ) * Real.sqrt 252 * 100
    if 0 < dd then (annualized_return_of p - (rf : ℝ) * 100) / dd else 0
  else sharpe_ratio_of p rf

/-- The benchmark annualised return used inside the alpha computation. -/
noncomputable def benchmark_return_of (b : List ℚ) (years : ℚ) : ℝ :=
  if 0 < years then
    (((b.getLastD 0 / b.headD 0 : ℚ) : ℝ) ^ ((1 : ℝ) / ((years : ℚ) : ℝ)) - 1) * 100
  else 0

/-- Jensen's alpha as computed by the source for a given beta. -/
noncomputable def alpha_of (p b : List ℚ) (rf β : ℚ) : ℝ :=
  annualized_return_of p -
    ((rf : ℝ) * 100 + (β : ℝ) * (benchmark_return_of b (years_of p) - (rf : ℝ) * 100))

/-- Pearson correlation `np.corrcoef(r, r_b)[0,1]` (the `ddof` convention
cancels; stated with the population moments). -/
noncomputable def correlation_of (p b : List ℚ) : ℝ :=
  ((covPop (dailyReturns p) (dailyReturns b) : ℚ) : ℝ) /
    (Real.sqrt ((varPop (dailyReturns p) : ℚ) : ℝ) *
      Real.sqrt ((varPop (dailyReturns b) : ℚ) : ℝ))

/-- The six always-present entries of the stats dict, in insertion order. -/
noncomputable def base_stats (p : List ℚ) (rf : ℚ) : List (String × ℝ) :=
  [("total_return", ((round2 (total_return_of p) : ℚ) : ℝ)),
   ("annualized_return", round2R (annualized_return_of p)),
   ("volatility", round2R (volatility_of p)),
   ("max_drawdown", ((round2 (max_drawdown_of p) : ℚ) : ℝ)),
   ("sharpe_ratio", round3R (sharpe_ratio_of p rf)),
   ("sortino_ratio", round3R (sortino_ratio_of p rf))]

/-- The conditional `beta`/`alpha`/`correlation` entries: present exactly when
the source's beta guards pass (benchmark given, equal length, more than one
benchmark return, positive benchmark-return variance). -/
noncomputable def beta_entries (p : List ℚ) (bd : Option (List ℚ)) (rf : ℚ) :
    List (String × ℝ) :=
  match bd, beta_of p bd with
  | some b, some β =>
    [("beta", ((round3 β : ℚ) : ℝ)),
     ("alpha", round2R (alpha_of p b rf β)),
     ("correlation", round3R (correlation_of p b))]
  | _, _ => []

/-- Embeds `MarketDataService.calculate_real_performance_stats`.  The empty
list models the empty dict `{}` returned for degenerate input (fewer than two
price points); the function is total, modelling the `try/except` boundary that
never propagates an exception. -/
noncomputable def calculate_real_performance_stats (p : List ℚ)
    (bd : Option (List ℚ)) (rf : ℚ) : List (String × ℝ) :=
  if p.length < 2 then []
  else base_stats p rf ++ beta_entries p bd rf

/-- The dict literal built by `PerformanceService.generate_stats` from a
non-empty real stats dict `rs`: note it selects only four of the six
always-present keys (no `annualized_return`, no `sortino_ratio`) and stores
`rs.get("beta")` etc., which is `None` when the key is absent. -/
noncomputable def gen_stats_payload (rs : List (String × ℝ)) : List (String × Option ℝ) :=
  [("total_return", some ((lookupA rs "total_return").getD 0)),
   ("max_drawdown", some ((lookupA rs "max_drawdown").getD 0)),
   ("sharpe_ratio", some ((lookupA rs "sharpe_ratio").getD 0)),
   ("volatility", some ((lookupA rs "volatility").getD 0)),
   ("beta", lookupA rs "beta"),
   ("alpha", lookupA rs "alpha"),
   ("correlation", lookupA rs "correlation")]

/-- Embeds `PerformanceService.generate_stats` on its real-data path.  `mock`
is the randomised fallback dict produced when the real stats are empty
(`if real_stats:` falls through to mock data). -/
noncomputable def generate_stats (mock : List (String × Option ℝ)) (index_values : List ℚ)
    (benchmark_values : Option (List ℚ)) : List (String × Option ℝ) :=
  match calculate_real_performance_stats index_values benchmark_values (2 / 100) with
  | [] => mock
  | x :: xs => gen_stats_payload (x :: xs)

/-! ## Reference definitions written from the specification text

These follow the spec's words (§4.3 step 2-5 for the composite, §4.4 for the
benchmark alignment) and are compared against the embeddings above in the
refinement theorems for C1 and C5. -/

/-- Spec §4.3: the intersection of a family of date axes (empty for an empty
family). -/
def intersect_axes : List (List Date) → List Date
  | [] => []
  | a :: rest => rest.foldl (fun acc ax => acc.filter (fun d => d ∈ ax)) a

/-- The sampled series of one requested ticker (spec §4.1 applied to the
fetched series). -/
def spec_sampled (td : List (String × PriceSeries)) (t : String) (months : ℕ) : PriceSeries :=
  sample_data_for_performance ((lookupA td t).getD []) months

/-- Spec §4.3 step 4, numerator: `Σ(price_t(date) * weight_t)` over the tickers
that have a price at the date. -/
def spec_num (td : List (String × PriceSeries)) (months : ℕ) (ws : List ℚ) (d : Date) :
    List String → ℕ → ℚ
  | [], _ => 0
  | t :: ts, i =>
    (match lookupA (spec_sampled td t months) d with
     | some p => p * ws.getD i 0
     | none => 0) + spec_num td months ws d ts (i + 1)

/-- Spec §4.3 step 4, denominator: `Σ(weight_t present at date)`. -/
def spec_den (td : List (String × PriceSeries)) (months : ℕ) (ws : List ℚ) (d : Date) :
    List String → ℕ → ℚ
  | [], _ => 0
  | t :: ts, i =>
    (match lookupA (spec_sampled td t months) d with
     | some _ => ws.getD i 0
     | none => 0) + spec_den td months ws d ts (i + 1)

/-- Spec §4.3 step 4: the composite value at one date. -/
def spec_value_at (td : List (String × PriceSeries)) (months : ℕ) (tickers : List String)
    (ws : List ℚ) (d : Date) : ℚ :=
  spec_num td months ws d tickers 0 / spec_den td months ws d tickers 0

/-- Spec §4.3 step 3: sort the intersected sampled date axes ascending and keep
only the most recent `min(months*21, count)` dates. -/
def spec_composite_dates (td : List (String × PriceSeries)) (tickers : List String)
    (months : ℕ) : List Date :=
  let sorted := List.insertionSort (· ≤ ·)
    (intersect_axes (tickers.map (fun t => datesOf (spec_sampled td t months))))
  sorted.drop (sorted.length - min (months * 21) sorted.length)

/-- Spec §4.3 steps 4-5: the reference composite index values — per-date
weighted values, divided by the first value, times 100, rounded to 2 decimals. -/
def spec_composite_values (td : List (String × PriceSeries)) (tickers : List String)
    (ws : List ℚ) (months : ℕ) : List ℚ :=
  let vals := (spec_composite_dates td tickers months).map
    (spec_value_at td months tickers ws)
  vals.map (fun v => round2 (v / vals.headD 0 * 100))

/-- Spec §4.4: resolve the benchmark value for each composite date, carrying
the previously resolved value (initially the benchmark series' first available
price). -/
def spec_resolve (prices : PriceSeries) (prev : ℚ) : List Date → List ℚ
  | [] => []
  | d :: ds =>
    let cd := closest_date (datesOf prices) d
    let v := if (cd - d).natAbs ≤ 3 then priceAt prices cd else prev
    v :: spec_resolve prices v ds

/-- Spec §4.4: the aligned benchmark series — resolved values divided by the
first resolved value, times 100, rounded to 2 decimals. -/
def spec_aligned_benchmark (prices : PriceSeries) (dates : List Date) : List ℚ :=
  let resolved := spec_resolve prices ((prices.headD (0, 0)).2) dates
  resolved.map (fun v => round2 (v / resolved.headD 0 * 100))

/-! ## Basic lemmas -/

theorem dailyReturns_length (l : List ℚ) : (dailyReturns l).length = l.length - 1 := by
  cases l with
  | nil => rfl
  | cons x xs => simp [dailyReturns, List.length_zipWith]

theorem varPop_of_short (xs : List ℚ) (h : xs.length ≤ 1) : varPop xs = 0 := by
  match xs, h with
  | [], _ => simp [varPop]
  | [x], _ => simp [varPop, meanQ]

theorem two_le_of_varPop_pos {xs : List ℚ} (h : 0 < varPop xs) : 2 ≤ xs.length := by
  by_contra hn
  push_neg at hn
  rw [varPop_of_short xs (by omega)] at h
  exact lt_irrefl 0 h

theorem lookupA_append_of_none {α : Type} {l₁ l₂ : List (String × α)} {k : String}
    (h : lookupA l₁ k = none) : lookupA (l₁ ++ l₂) k = lookupA l₂ k := by
  induction l₁ with
  | nil => rfl
  | cons x xs ih =>
    obtain ⟨k₁, v₁⟩ := x
    by_cases hk : k₁ = k
    · simp [lookupA, hk] at h
    · simp only [lookupA, List.cons_append, if_neg hk] at h ⊢
      exact ih h

theorem lookupA_base_stats_extra (p : List ℚ) (rf : ℚ) (k : String)
    (hk : k = "beta" ∨ k = "alpha" ∨ k = "correlation") :
    lookupA (base_stats p rf) k = none := by
  rcases hk with h | h | h <;> subst h <;> simp [base_stats, lookupA]

/-- The `beta` entry of the full stats dict is exactly the (rounded) `beta_of`. -/
theorem lookup_beta_eq (p : List ℚ) (bd : Option (List ℚ)) (rf : ℚ)
    (h : ¬ p.length < 2) :
    lookupA (calculate_real_performance_stats p bd rf) "beta" =
      (beta_of p bd).map (fun β => ((round3 β : ℚ) : ℝ)) := by
  unfold calculate_real_performance_stats
  rw [if_neg h, lookupA_append_of_none (lookupA_base_stats_extra p rf _ (Or.inl rfl))]
  unfold beta_entries
  cases hbd : bd with
  | none => simp [beta_of, lookupA]
  | some b =>
    cases hβ : beta_of p (some b) with
    | none => simp [lookupA]
    | some β => simp [lookupA]

theorem beta_entries_of_none {p : List ℚ} {bd : Option (List ℚ)} {rf : ℚ}
    (h : beta_of p bd = none) : beta_entries p bd rf = [] := by
  unfold beta_entries
  cases bd with
  | none => simp
  | some b => rw [h]


/-! ## Claim C9: sampling policy rule table -/

/-- C9: for every horizon in 1..120, `get_optimal_interval` returns the weekly
interval exactly when `months ≥ 36` and the daily interval otherwise, and
`sample_data_for_performance` keeps every 2nd sample exactly when
`6 ≤ months ≤ 35` and keeps all samples otherwise. -/
theorem c9_sampling_policy (m : ℕ) (h1 : 1 ≤ m) (h2 : m ≤ 120) :
    (get_optimal_interval m = "1wk" ↔ 36 ≤ m) ∧
    (get_optimal_interval m = "1d" ↔ m < 36) ∧
    ∀ data : PriceSeries,
      sample_data_for_performance data m =
        if 6 ≤ m ∧ m ≤ 35 then everySecond data else data := by
  refine ⟨?_, ?_, ?_⟩
  · unfold get_optimal_interval
    split_ifs with ha hb hc hd <;>
      (constructor <;> intro hx <;> first | omega | rfl | exact absurd hx (by decide))
  · unfold get_optimal_interval
    split_ifs with ha hb hc hd <;>
      (constructor <;> intro hx <;> first | omega | rfl | exact absurd hx (by decide))
  · intro data
    unfold sample_data_for_performance
    split_ifs with ha hb hc hd he <;> first
      | rfl
      | omega
      | (subst ha; cases (6 ≤ m ∧ m ≤ 35) <;> rfl)
      | (simp [everySecond, ha])

/-- Witness for C9 at the concrete horizon 7. -/
theorem c9_sampling_policy_witness :
    (get_optimal_interval 7 = "1wk" ↔ 36 ≤ 7) ∧
    (get_optimal_interval 7 = "1d" ↔ 7 < 36) ∧
    ∀ data : PriceSeries,
      sample_data_for_performance data 7 =
        if 6 ≤ 7 ∧ 7 ≤ 35 then everySecond data else data :=
  c9_sampling_policy 7 (by decide) (by decide)

/-! ## Claim C7: the statistics engine is total at its boundary -/

/-- C7: `calculate_real_performance_stats` is total (the embedding is a total
function, matching the source's catch-all `try/except` that never propagates),
and every degenerate input — an empty list or fewer than 2 price points —
yields the empty stats dict. -/
theorem c7_degenerate_input_empty_stats (p : List ℚ) (bd : Option (List ℚ)) (rf : ℚ)
    (h : p.length < 2) : calculate_real_performance_stats p bd rf = [] := by
  unfold calculate_real_performance_stats
  rw [if_pos h]

/-- Witness for C7 at a one-point series. -/
theorem c7_degenerate_input_empty_stats_witness :
    calculate_real_performance_stats [50] none (2 / 100) = [] :=
  c7_degenerate_input_empty_stats [50] none (2 / 100) (by decide)

/-! ## Claim C2: insufficient overlap falls back to synthetic data -/

/-- C2: whenever no ticker yields a non-empty sampled series or the
intersection of the sampled date axes has fewer than 10 dates
(`common_date_count < 10` covers exactly these two cases), the portfolio
computation returns the synthetic fallback data; no composite is built and
the (total) function cannot raise. -/
theorem c2_insufficient_overlap_falls_back (env : Env) (td : List (String × PriceSeries))
    (tickers : List String) (weights : List ℚ) (months : ℕ)
    (h : common_date_count td tickers months < 10) :
    calculate_weighted_performance env td tickers weights months =
      generate_fallback_data env months := by
  unfold calculate_weighted_performance
  unfold common_date_count at h
  dsimp only
  cases hI : interAxes (buildTickerPrices td months tickers) with
  | none => rfl
  | some ds =>
    rw [hI] at h
    dsimp only at h ⊢
    rw [if_pos h]

/-- Witness for C2: a single ticker with only 5 common dates. -/
theorem c2_insufficient_overlap_falls_back_witness :
    calculate_weighted_performance ⟨[], none, 0, fun _ => 0, fun _ => 0⟩
        [("A", [(0, 1), (1, 1), (2, 1), (3, 1), (4, 1)])] ["A"] [1] 1 =
      generate_fallback_data ⟨[], none, 0, fun _ => 0, fun _ => 0⟩ 1 :=
  c2_insufficient_overlap_falls_back _ _ _ _ _ (by decide)

/-! ## Claim C3: the orchestrator's fallback path (code bug) -/

/-- C3 (code bug): with empty (or missing) holdings the source's
`generate_performance_data` does NOT return a synthetic payload — its mock-data
fallback `return` is commented out, so the function returns Python `None`.
This theorem evaluates the embedding at the failing input. -/
theorem c3_empty_holdings_returns_none :
    generate_performance_data ⟨[], none, 0, fun _ => 0, fun _ => 0⟩ [] 12 true = none := by
  rfl

/-! ## Claim C4: first entry of every series is 100 (corrected) -/

/-- C4 counterexample: on the synthetic fallback path (here: the fetch returned
no data, and the generator's first random draw is +1%) the first index value is
101, not 100 within 1e-6.  The source multiplies by `(1 + daily_return)` before
appending the first value. -/
theorem c4_counterexample_fallback_not_100 :
    (calculate_portfolio_performance ⟨[], none, 0, fun _ => 1 / 100, fun _ => 0⟩
        [⟨some "AAPL", 50, some "US"⟩] 1).index_values.headD 0 = 101 ∧
    ¬ |(calculate_portfolio_performance ⟨[], none, 0, fun _ => 1 / 100, fun _ => 0⟩
        [⟨some "AAPL", 50, some "US"⟩] 1).index_values.headD 0 - 100| ≤ 1 / 1000000 := by
  constructor <;> with_unfolding_all decide

/-- C4 amended: every real-data-path series is produced by `normalize_to_100`,
whose first entry is exactly 100 whenever the first pre-normalisation value is
nonzero; synthetic fallback series instead start at `round2 (100 * (1 + r₀))`
where `r₀` is the first random draw, which is generally not 100. -/
theorem c4_first_value_amended :
    (∀ vs : List ℚ, vs ≠ [] → vs.headD 0 ≠ 0 → (normalize_to_100 vs).headD 0 = 100) ∧
    ∀ (rs : ℕ → ℚ) (n : ℕ), 1 ≤ n →
      (generate_fallback_benchmark rs n).headD 0 = round2 (100 * (1 + rs 0)) := by
  constructor
  · intro vs hne h0
    cases vs with
    | nil => exact absurd rfl hne
    | cons v tl =>
      have hv : v ≠ 0 := h0
      simp only [normalize_to_100, List.map_cons, List.headD_cons]
      rw [div_self hv]
      with_unfolding_all decide
  · intro rs n hn
    cases n with
    | zero => omega
    | succ m => rfl

/-- Witness for the amended C4. -/
theorem c4_first_value_amended_witness :
    (normalize_to_100 [2, 4]).headD 0 = 100 ∧
    (generate_fallback_benchmark (fun _ => 1 / 100) 3).headD 0 =
      round2 (100 * (1 + (1 : ℚ) / 100)) :=
  ⟨c4_first_value_amended.1 [2, 4] (by decide) (by decide),
   c4_first_value_amended.2 (fun _ => 1 / 100) 3 (by decide)⟩

/-! ## Claim C6: beta formula (corrected) -/

/-- C6 counterexample: the source's beta is `np.cov` (sample, ddof=1) over
`np.var` (population, ddof=0); at prices `[1,2,1]` against benchmark `[1,3,1]`
it reports 1.125, while any single consistent variance convention gives
`covPop/varPop = 9/16` (rounded 0.563).  So beta is NOT `cov/var` under one
consistent variance definition. -/
theorem c6_counterexample_beta_inconsistent_ddof :
    lookupA (calculate_real_performance_stats [1, 2, 1] (some [1, 3, 1]) (2 / 100)) "beta" ≠
      some ((round3 (covPop (dailyReturns [1, 2, 1]) (dailyReturns [1, 3, 1]) /
        varPop (dailyReturns [1, 3, 1])) : ℚ) : ℝ) := by
  rw [lookup_beta_eq _ _ _ (by decide)]
  have hb : beta_of [1, 2, 1] (some [1, 3, 1]) = some (9 / 8) := by
    with_unfolding_all decide
  rw [hb]
  simp only [Option.map_some', ne_eq, Option.some.injEq]
  intro hcast
  have hq : round3 ((9 : ℚ) / 8) =
      round3 (covPop (dailyReturns [1, 2, 1]) (dailyReturns [1, 3, 1]) /
        varPop (dailyReturns [1, 3, 1])) := by
    exact_mod_cast hcast
  exact absurd hq (by with_unfolding_all decide)

/-- C6 amended: for equal-length series with a non-empty benchmark, when the
population variance of the benchmark daily returns is positive the reported
beta is `round3 (covSample r r_b / varPop r_b)` — the SAMPLE covariance
(ddof=1) divided by the POPULATION variance (ddof=0), i.e. `n/(n-1)` times the
consistent-convention beta; and when that variance is 0, beta, alpha and
correlation are all omitted from the result. -/
theorem c6_beta_amended (p b : List ℚ) (rf : ℚ) (hb : b ≠ [])
    (hlen : b.length = p.length) :
    (0 < varPop (dailyReturns b) →
      lookupA (calculate_real_performance_stats p (some b) rf) "beta" =
        some ((round3 (covSample (dailyReturns p) (dailyReturns b) /
          varPop (dailyReturns b)) : ℚ) : ℝ)) ∧
    (varPop (dailyReturns b) = 0 →
      lookupA (calculate_real_performance_stats p (some b) rf) "beta" = none ∧
      lookupA (calculate_real_performance_stats p (some b) rf) "alpha" = none ∧
      lookupA (calculate_real_performance_stats p (some b) rf) "correlation" = none) := by
  constructor
  · intro hv
    have hrb2 : 2 ≤ (dailyReturns b).length := two_le_of_varPop_pos hv
    have hb3 : 3 ≤ b.length := by
      have := dailyReturns_length b
      omega
    have hp2 : ¬ p.length < 2 := by omega
    rw [lookup_beta_eq _ _ _ hp2]
    have hβ : beta_of p (some b) =
        some (covSample (dailyReturns p) (dailyReturns b) / varPop (dailyReturns b)) := by
      unfold beta_of
      dsimp only
      rw [if_pos (show ¬b = [] ∧ b.length = p.length from ⟨hb, hlen⟩)]
      rw [if_pos (show (dailyReturns b).length = (dailyReturns p).length ∧
            1 < (dailyReturns b).length from
          ⟨by rw [dailyReturns_length, dailyReturns_length, hlen], by omega⟩)]
      rw [if_pos hv]
    rw [hβ, Option.map_some']
  · intro hv
    by_cases hp : p.length < 2
    · rw [c7_degenerate_input_empty_stats p (some b) rf hp]
      exact ⟨rfl, rfl, rfl⟩
    · have hβ : beta_of p (some b) = none := by
        unfold beta_of
        dsimp only
        rw [if_pos (show ¬b = [] ∧ b.length = p.length from ⟨hb, hlen⟩)]
        by_cases hg : (dailyReturns b).length = (dailyReturns p).length ∧
            1 < (dailyReturns b).length
        · rw [if_pos hg, if_neg (by rw [hv]; exact lt_irrefl 0)]
        · rw [if_neg hg]
      unfold calculate_real_performance_stats
      rw [if_neg hp, beta_entries_of_none hβ]
      refine ⟨?_, ?_, ?_⟩ <;>
        simpa using lookupA_base_stats_extra p rf _ (by simp)

/-- Witness for the amended C6: at `[1,2,1]` vs `[1,3,1]` the reported beta is
the rounded sample-cov/population-var quotient (here 1.125). -/
theorem c6_beta_amended_witness :
    lookupA (calculate_real_performance_stats [1, 2, 1] (some [1, 3, 1]) (2 / 100)) "beta" =
      some ((round3 (covSample (dailyReturns [1, 2, 1]) (dailyReturns [1, 3, 1]) /
        varPop (dailyReturns [1, 3, 1])) : ℚ) : ℝ) :=
  (c6_beta_amended [1, 2, 1] [1, 3, 1] (2 / 100) (by decide) (by decide)).1
    (by with_unfolding_all decide)

/-! ## Claim C8: shape of the stats records (corrected) -/

/-- Keys contributed by the conditional beta block. -/
theorem beta_entries_keys (p : List ℚ) (bd : Option (List ℚ)) (rf : ℚ) :
    (beta_entries p bd rf).map Prod.fst =
      (match beta_of p bd with
       | some _ => ["beta", "alpha", "correlation"]
       | none => []) := by
  cases bd with
  | none => rfl
  | some b =>
    unfold beta_entries
    cases hβ : beta_of p (some b) with
    | none => rfl
    | some β => rfl

/-- C8 counterexample: `generate_stats` does NOT preserve the stats-record
shape — at the 3-point series `[100,110,105]` with no benchmark, its result has
no `annualized_return` key (and no `sortino_ratio` key either; instead it keeps
`beta`/`alpha`/`correlation` entries holding `None`). -/
theorem c8_counterexample_generate_stats_shape :
    "annualized_return" ∉ (generate_stats [] [100, 110, 105] none).map Prod.fst := by
  obtain ⟨x, xs, hx⟩ : ∃ x xs,
      calculate_real_performance_stats [100, 110, 105] none (2 / 100) = x :: xs := by
    unfold calculate_real_performance_stats
    rw [if_neg (by decide)]
    unfold base_stats
    exact ⟨_, _, rfl⟩
  unfold generate_stats
  rw [hx]
  simp [gen_stats_payload]

/-- C8 amended: `calculate_real_performance_stats` (for at least 2 points)
returns exactly {total_return, annualized_return, volatility, max_drawdown,
sharpe_ratio, sortino_ratio}, plus {beta, alpha, correlation} exactly when the
beta guards pass — which requires a benchmark series of equal length; but
`generate_stats` does not preserve this shape: it always returns exactly
{total_return, max_drawdown, sharpe_ratio, volatility, beta, alpha,
correlation}, dropping annualized_return and sortino_ratio and keeping
beta/alpha/correlation keys (with null values) even without a benchmark. -/
theorem c8_stats_shape_amended (p : List ℚ) (bd : Option (List ℚ)) (rf : ℚ)
    (mock : List (String × Option ℝ)) (h2 : 2 ≤ p.length) :
    ((calculate_real_performance_stats p bd rf).map Prod.fst =
      ["total_return", "annualized_return", "volatility", "max_drawdown",
       "sharpe_ratio", "sortino_ratio"] ++
        (match beta_of p bd with
         | some _ => ["beta", "alpha", "correlation"]
         | none => [])) ∧
    (beta_of p bd ≠ none → ∃ b, bd = some b ∧ b.length = p.length) ∧
    (generate_stats mock p bd).map Prod.fst =
      ["total_return", "max_drawdown", "sharpe_ratio", "volatility",
       "beta", "alpha", "correlation"] := by
  refine ⟨?_, ?_, ?_⟩
  · unfold calculate_real_performance_stats
    rw [if_neg (by omega), List.map_append, beta_entries_keys]
    rfl
  · intro hne
    cases hbd : bd with
    | none => rw [hbd] at hne; exact absurd rfl hne
    | some b =>
      refine ⟨b, rfl, ?_⟩
      by_contra hq
      rw [hbd] at hne
      apply hne
      unfold beta_of
      dsimp only
      rw [if_neg (fun hc => hq hc.2)]
  · obtain ⟨x, xs, hx⟩ : ∃ x xs,
        calculate_real_performance_stats p bd (2 / 100) = x :: xs := by
      unfold calculate_real_performance_stats
      rw [if_neg (by omega)]
      unfold base_stats
      exact ⟨_, _, rfl⟩
    unfold generate_stats
    rw [hx]
    rfl

/-- Witness for the amended C8 at `[100,110,105]` without benchmark. -/
theorem c8_stats_shape_amended_witness :
    ((calculate_real_performance_stats [100, 110, 105] none (2 / 100)).map Prod.fst =
      ["total_return", "annualized_return", "volatility", "max_drawdown",
       "sharpe_ratio", "sortino_ratio"] ++
        (match beta_of [100, 110, 105] none with
         | some _ => ["beta", "alpha", "correlation"]
         | none => [])) ∧
    (beta_of [100, 110, 105] none ≠ none →
      ∃ b, (none : Option (List ℚ)) = some b ∧ b.length = ([100, 110, 105] : List ℚ).length) ∧
    (generate_stats [] [100, 110, 105] none).map Prod.fst =
      ["total_return", "max_drawdown", "sharpe_ratio", "volatility",
       "beta", "alpha", "correlation"] :=
  c8_stats_shape_amended [100, 110, 105] none (2 / 100) [] (by decide)

/-! ## Claim C5: benchmark alignment -/

theorem everySecond_ne_nil {α : Type} (l : List α) (h : l ≠ []) : everySecond l ≠ [] := by
  match l, h with
  | [a], _ => simp [everySecond]
  | a :: b :: rest, _ => simp [everySecond]

theorem sample_ne_nil (s : PriceSeries) (months : ℕ) (h : s ≠ []) :
    sample_data_for_performance s months ≠ [] := by
  unfold sample_data_for_performance
  split_ifs <;> first | exact h | exact everySecond_ne_nil s h

theorem spec_resolve_length (prices : PriceSeries) (prev : ℚ) (ds : List Date) :
    (spec_resolve prices prev ds).length = ds.length := by
  induction ds generalizing prev with
  | nil => rfl
  | cons d ds ih => simp [spec_resolve, ih]

/-- The source's fold-with-carry alignment loop computes exactly the spec's
recursive resolution started from the series' first price. -/
theorem alignLoop_eq_spec_resolve (prices : PriceSeries) (dates : List Date) :
    alignLoop prices dates = spec_resolve prices ((prices.headD (0, 0)).2) dates := by
  have key : ∀ (ds : List Date) (acc : List ℚ) (prev : ℚ), acc.getLast? = some prev →
      ds.foldl
        (fun acc d =>
          let cd := closest_date (datesOf prices) d
          let v :=
            if (cd - d).natAbs ≤ 3 then priceAt prices cd
            else
              match acc.getLast? with
              | some prev => prev
              | none => (prices.headD (0, 0)).2
          acc ++ [v])
        acc = acc ++ spec_resolve prices prev ds := by
    intro ds
    induction ds with
    | nil => intro acc prev _; simp [spec_resolve]
    | cons d ds ih =>
      intro acc prev hacc
      rw [List.foldl_cons]
      dsimp only
      rw [hacc]
      set v := if (closest_date (datesOf prices) d - d).natAbs ≤ 3 then
        priceAt prices (closest_date (datesOf prices) d) else prev with hv
      rw [ih (acc ++ [v]) v (List.getLast?_concat _)]
      rw [spec_resolve]
      simp [List.append_assoc]
  cases dates with
  | nil => rfl
  | cons d ds =>
    unfold alignLoop
    rw [List.foldl_cons]
    dsimp only
    rw [List.getLast?_nil]
    dsimp only
    set prev0 := (prices.headD (0, 0)).2 with hprev
    set v := if (closest_date (datesOf prices) d - d).natAbs ≤ 3 then
      priceAt prices (closest_date (datesOf prices) d) else prev0 with hv
    rw [key ds ([] ++ [v]) v (List.getLast?_concat _)]
    rw [spec_resolve]
    simp

/-- C5: for a non-empty composite date list (and a successfully fetched,
non-empty benchmark series) `fetch_benchmark_performance` returns exactly the
spec's aligned benchmark: per date, the price at the closest benchmark date if
within 3 days, else the previously resolved value (initially the series' first
price), then normalised by the first resolved value, times 100, rounded to 2
decimals — and the result has exactly the same length as the composite dates. -/
theorem c5_benchmark_alignment (env : Env) (bs : PriceSeries) (dates : List Date)
    (months : ℕ) (hb : env.benchmark = some bs) (hbs : bs ≠ []) (hd : dates ≠ []) :
    fetch_benchmark_performance env dates months =
      spec_aligned_benchmark (sample_data_for_performance bs months) dates ∧
    (fetch_benchmark_performance env dates months).length = dates.length := by
  have h1 : fetch_benchmark_performance env dates months =
      spec_aligned_benchmark (sample_data_for_performance bs months) dates := by
    unfold fetch_benchmark_performance
    rw [if_neg hd, hb]
    dsimp only
    rw [if_neg hbs]
    have hlen : (alignLoop (sample_data_for_performance bs months) dates).length =
        dates.length := by
      rw [alignLoop_eq_spec_resolve, spec_resolve_length]
    have hne : alignLoop (sample_data_for_performance bs months) dates ≠ [] := by
      intro h0
      rw [h0] at hlen
      exact hd (List.eq_nil_of_length_eq_zero hlen.symm)
    rw [if_neg hne]
    unfold spec_aligned_benchmark normalize_to_100
    rw [alignLoop_eq_spec_resolve]
  refine ⟨h1, ?_⟩
  rw [h1]
  unfold spec_aligned_benchmark
  rw [List.length_map, spec_resolve_length]

/-- Witness for C5: benchmark series `[(0,10),(5,12)]` aligned to dates
`[0, 9]` (date 0 matches exactly; date 9 is 4 days from the nearest benchmark
date, so the previous value is carried forward). -/
theorem c5_benchmark_alignment_witness :
    fetch_benchmark_performance ⟨[], some [(0, 10), (5, 12)], 0, fun _ => 0, fun _ => 0⟩
        [0, 9] 1 =
      spec_aligned_benchmark (sample_data_for_performance [(0, 10), (5, 12)] 1) [0, 9] ∧
    (fetch_benchmark_performance ⟨[], some [(0, 10), (5, 12)], 0, fun _ => 0, fun _ => 0⟩
        [0, 9] 1).length = ([0, 9] : List Date).length :=
  c5_benchmark_alignment ⟨[], some [(0, 10), (5, 12)], 0, fun _ => 0, fun _ => 0⟩
    [(0, 10), (5, 12)] [0, 9] 1 rfl (by decide) (by decide)

/-! ## Lemmas for the composite aggregator (claims C1 and C10) -/

/-- Decidable check that the fetch result has a usable (non-empty) series for a
ticker. -/
def has_nonempty_series (td : List (String × PriceSeries)) (t : String) : Bool :=
  match lookupA td t with
  | some s => !s.isEmpty
  | none => false

theorem extract_holdings_weights (holdings : List Holding) :
    (extract_holdings holdings).2.length = (extract_holdings holdings).1.length ∧
    ∀ w ∈ (extract_holdings holdings).2, 0 < w := by
  induction holdings with
  | nil => exact ⟨rfl, by intro w hw; cases hw⟩
  | cons h rest ih =>
    unfold extract_holdings
    dsimp only
    cases h.ticker with
    | none => exact ih
    | some t =>
      dsimp only
      by_cases hc : t ≠ "" ∧ 0 < h.weight
      · rw [if_pos hc]
        refine ⟨by simp [ih.1], ?_⟩
        intro w hw
        rcases List.mem_cons.mp hw with hw | hw
        · rw [hw]; exact div_pos hc.2 (by norm_num)
        · exact ih.2 w hw
      · rw [if_neg hc]; exact ih

theorem lookupA_mem {κ α : Type} [DecidableEq κ] {l : List (κ × α)} {k : κ} {v : α}
    (h : lookupA l k = some v) : (k, v) ∈ l := by
  induction l with
  | nil => cases h
  | cons x xs ih =>
    obtain ⟨k₁, v₁⟩ := x
    unfold lookupA at h
    by_cases hk : k₁ = k
    · rw [if_pos hk] at h
      injection h with hv
      subst hk hv
      exact List.mem_cons_self _ _
    · rw [if_neg hk] at h
      exact List.mem_cons_of_mem _ (ih h)

theorem lookupA_isSome_of_mem_datesOf {s : PriceSeries} {d : Date}
    (h : d ∈ datesOf s) : ∃ p, lookupA s d = some p := by
  induction s with
  | nil => cases h
  | cons x xs ih =>
    obtain ⟨d₁, p₁⟩ := x
    unfold lookupA
    by_cases hd : d₁ = d
    · exact ⟨p₁, if_pos hd⟩
    · rcases List.mem_cons.mp h with h1 | h1
      · exact absurd h1.symm hd
      · rw [if_neg hd]; exact ih h1

theorem buildTickerPrices_eq_map (td : List (String × PriceSeries)) (months : ℕ)
    (ts : List String) (h : ∀ t ∈ ts, has_nonempty_series td t = true) :
    buildTickerPrices td months ts = ts.map (fun t => (t, spec_sampled td t months)) := by
  induction ts with
  | nil => rfl
  | cons t ts ih =>
    have ht := h t (List.mem_cons_self _ _)
    unfold has_nonempty_series at ht
    unfold buildTickerPrices
    cases hl : lookupA td t with
    | none => rw [hl] at ht; cases ht
    | some s =>
      rw [hl] at ht
      simp only [Bool.not_eq_true'] at ht
      have hs : ¬ s = [] := by
        intro h0; rw [h0] at ht; simp at ht
      dsimp only
      rw [if_neg hs, ih (fun t' ht' => h t' (List.mem_cons_of_mem _ ht')), List.map_cons]
      unfold spec_sampled
      rw [hl]
      rfl

theorem lookupA_map_self {f : String → PriceSeries} {ts : List String} {t : String}
    (h : t ∈ ts) : lookupA (ts.map (fun t => (t, f t))) t = some (f t) := by
  induction ts with
  | nil => cases h
  | cons t₁ ts ih =>
    simp only [List.map_cons]
    unfold lookupA
    by_cases ht : t₁ = t
    · rw [if_pos ht, ht]
    · rcases List.mem_cons.mp h with h1 | h1
      · exact absurd h1.symm ht
      · rw [if_neg ht]; exact ih h1

theorem interAxes_eq_intersect (l : List (String × PriceSeries)) (h : l ≠ []) :
    interAxes l = some (intersect_axes (l.map (fun p => datesOf p.2))) := by
  cases l with
  | nil => exact absurd rfl h
  | cons q rest =>
    obtain ⟨t, s⟩ := q
    unfold interAxes intersect_axes
    rw [List.map_cons]
    dsimp only
    rw [List.foldl_map]

theorem mem_foldl_inter {axes : List (List Date)} {init : List Date} {d : Date}
    (h : d ∈ axes.foldl (fun acc ax => acc.filter (fun x => x ∈ ax)) init) :
    d ∈ init ∧ ∀ ax ∈ axes, d ∈ ax := by
  induction axes generalizing init with
  | nil => exact ⟨h, by intro ax hax; cases hax⟩
  | cons a axes ih =>
    rw [List.foldl_cons] at h
    obtain ⟨h1, h2⟩ := ih h
    rw [List.mem_filter] at h1
    refine ⟨h1.1, ?_⟩
    intro ax hax
    rcases List.mem_cons.mp hax with hax | hax
    · rw [hax]; exact of_decide_eq_true h1.2
    · exact h2 ax hax

theorem mem_intersect_axes {axes : List (List Date)} {d : Date}
    (h : d ∈ intersect_axes axes) : ∀ ax ∈ axes, d ∈ ax := by
  cases axes with
  | nil => intro ax hax; cases hax
  | cons a rest =>
    unfold intersect_axes at h
    obtain ⟨h1, h2⟩ := mem_foldl_inter h
    intro ax hax
    rcases List.mem_cons.mp hax with hax | hax
    · rw [hax]; exact h1
    · exact h2 ax hax

/-- On the fully-available ticker map, the source's per-date accumulation
computes exactly the spec's numerator and denominator sums. -/
theorem sum_at_eq_spec (td : List (String × PriceSeries)) (months : ℕ)
    (tickers : List String) (ws : List ℚ) (d : Date) :
    ∀ (ts : List String) (i : ℕ), (∀ t ∈ ts, t ∈ tickers) →
      sum_at (tickers.map (fun t => (t, spec_sampled td t months))) ws d ts i =
        (spec_num td months ws d ts i, spec_den td months ws d ts i) := by
  intro ts
  induction ts with
  | nil => intro i _; rfl
  | cons t ts ih =>
    intro i hsub
    unfold sum_at spec_num spec_den
    rw [lookupA_map_self (hsub t (List.mem_cons_self _ _))]
    rw [ih (i + 1) (fun t' ht' => hsub t' (List.mem_cons_of_mem _ ht'))]
    dsimp only
    cases lookupA (spec_sampled td t months) d with
    | none => simp
    | some p => rfl

theorem getD_nonneg {ws : List ℚ} (h : ∀ w ∈ ws, 0 < w) (j : ℕ) : 0 ≤ ws.getD j 0 := by
  induction ws generalizing j with
  | nil => simp [List.getD]
  | cons w ws ih =>
    cases j with
    | zero => exact le_of_lt (h w (List.mem_cons_self _ _))
    | succ j =>
      rw [List.getD_cons_succ]
      exact ih (fun w' hw' => h w' (List.mem_cons_of_mem _ hw')) j

theorem getD_pos_of_lt {ws : List ℚ} (h : ∀ w ∈ ws, 0 < w) (j : ℕ)
    (hj : j < ws.length) : 0 < ws.getD j 0 := by
  induction ws generalizing j with
  | nil => cases hj
  | cons w ws ih =>
    cases j with
    | zero => exact h w (List.mem_cons_self _ _)
    | succ j =>
      rw [List.getD_cons_succ]
      exact ih (fun w' hw' => h w' (List.mem_cons_of_mem _ hw')) j
        (Nat.lt_of_succ_lt_succ hj)

theorem spec_den_nonneg (td : List (String × PriceSeries)) (months : ℕ) (ws : List ℚ)
    (d : Date) (hw : ∀ j, 0 ≤ ws.getD j 0) :
    ∀ (ts : List String) (i : ℕ), 0 ≤ spec_den td months ws d ts i := by
  intro ts
  induction ts with
  | nil => intro i; exact le_refl 0
  | cons t ts ih =>
    intro i
    unfold spec_den
    have h1 : 0 ≤ (match lookupA (spec_sampled td t months) d with
        | some _ => ws.getD i 0
        | none => 0) := by
      cases lookupA (spec_sampled td t months) d with
      | none => exact le_refl 0
      | some p => exact hw i
    exact add_nonneg h1 (ih (i + 1))

theorem spec_den_pos (td : List (String × PriceSeries)) (months : ℕ) (ws : List ℚ)
    (d : Date) (t : String) (ts : List String) (i : ℕ)
    (hpres : ∃ p, lookupA (spec_sampled td t months) d = some p)
    (hw : ∀ j, 0 ≤ ws.getD j 0) (hi : 0 < ws.getD i 0) :
    0 < spec_den td months ws d (t :: ts) i := by
  unfold spec_den
  obtain ⟨p, hp⟩ := hpres
  rw [hp]
  exact add_pos_of_pos_of_nonneg hi (spec_den_nonneg td months ws d hw ts (i + 1))

theorem getD_map_mul (c : ℚ) (ws : List ℚ) (i : ℕ) :
    (ws.map (fun w => c * w)).getD i 0 = c * ws.getD i 0 := by
  induction ws generalizing i with
  | nil => simp [List.getD]
  | cons w ws ih =>
    cases i with
    | zero => rfl
    | succ i =>
      rw [List.map_cons, List.getD_cons_succ, List.getD_cons_succ]
      exact ih i

/-- Scaling all weights scales both accumulated sums linearly. -/
theorem sum_at_scale (tp : List (String × PriceSeries)) (ws : List ℚ) (c : ℚ) (d : Date) :
    ∀ (ts : List String) (i : ℕ),
      sum_at tp (ws.map (fun w => c * w)) d ts i =
        (c * (sum_at tp ws d ts i).1, c * (sum_at tp ws d ts i).2) := by
  intro ts
  induction ts with
  | nil => intro i; simp [sum_at]
  | cons t ts ih =>
    intro i
    unfold sum_at
    rw [ih (i + 1)]
    dsimp only
    cases lookupA tp t with
    | none => rfl
    | some s =>
      dsimp only
      cases lookupA s d with
      | none => rfl
      | some price =>
        dsimp only
        rw [getD_map_mul]
        refine Prod.ext ?_ ?_ <;> dsimp only <;> ring

/-- The total weight accumulated over tickers whose series is present in the
ticker map, independent of the date (used to show the per-date total weight is
constant across the intersection dates). -/
def den_all (tp : List (String × PriceSeries)) (ws : List ℚ) :
    List String → ℕ → ℚ
  | [], _ => 0
  | t :: ts, i =>
    (match lookupA tp t with
     | some _ => ws.getD i 0
     | none => 0) + den_all tp ws ts (i + 1)

/-- On a date contained in every stored series, the accumulated total weight
equals the date-independent `den_all`. -/
theorem sum_at_snd_eq_den_all (tp : List (String × PriceSeries)) (ws : List ℚ) (d : Date)
    (hpres : ∀ t s, lookupA tp t = some s → ∃ p, lookupA s d = some p) :
    ∀ (ts : List String) (i : ℕ), (sum_at tp ws d ts i).2 = den_all tp ws ts i := by
  intro ts
  induction ts with
  | nil => intro i; rfl
  | cons t ts ih =>
    intro i
    unfold sum_at den_all
    cases hl : lookupA tp t with
    | none => dsimp only; rw [ih (i + 1)]; simp
    | some s =>
      obtain ⟨p, hp⟩ := hpres t s hl
      dsimp only
      rw [hp]
      dsimp only
      rw [ih (i + 1)]

theorem headD_map_mul (c : ℚ) (vs : List ℚ) :
    (vs.map (fun v => c * v)).headD 0 = c * vs.headD 0 := by
  cases vs with
  | nil => simp
  | cons v vs => rfl

/-! ## Claim C1: the composite equals the spec's reference composite -/

/-- C1: on the real-data path (every requested ticker has a non-empty sampled
series, and the intersection of the sampled date axes has at least 10 dates;
horizon at least 1 month), `calculate_portfolio_performance` returns exactly
the reference composite of the specification: the sorted intersection truncated
to the most recent `min(months*21, count)` dates, per-date weighted values
`Σ(price·weight)/Σ(weight present)`, divided by the first value, times 100,
rounded to 2 decimals. -/
theorem c1_composite_refinement (env : Env) (holdings : List Holding) (months : ℕ)
    (hm : 1 ≤ months)
    (hdata : ∀ t ∈ (extract_holdings holdings).1,
      has_nonempty_series env.ticker_data t = true)
    (hlen : 10 ≤ (intersect_axes ((extract_holdings holdings).1.map
      (fun t => datesOf (spec_sampled env.ticker_data t months)))).length) :
    (calculate_portfolio_performance env holdings months).dates =
      spec_composite_dates env.ticker_data (extract_holdings holdings).1 months ∧
    (calculate_portfolio_performance env holdings months).index_values =
      spec_composite_values env.ticker_data (extract_holdings holdings).1
        (extract_holdings holdings).2 months := by
  obtain ⟨hwlen, hwpos⟩ := extract_holdings_weights holdings
  have htne : (extract_holdings holdings).1 ≠ [] := by
    intro h0
    rw [h0] at hlen
    simp [intersect_axes] at hlen
  obtain ⟨t0, ts0, ht0⟩ : ∃ t0 ts0, (extract_holdings holdings).1 = t0 :: ts0 := by
    cases h : (extract_holdings holdings).1 with
    | nil => exact absurd h htne
    | cons a l => exact ⟨a, l, rfl⟩
  have hts0 : has_nonempty_series env.ticker_data t0 = true :=
    hdata t0 (by rw [ht0]; exact List.mem_cons_self _ _)
  have htd : env.ticker_data ≠ [] := by
    intro h0
    unfold has_nonempty_series at hts0
    rw [h0] at hts0
    simp [lookupA] at hts0
  have hbuild := buildTickerPrices_eq_map env.ticker_data months
    (extract_holdings holdings).1 hdata
  have hmapne : (extract_holdings holdings).1.map
      (fun t => (t, spec_sampled env.ticker_data t months)) ≠ [] := by
    rw [ht0]; simp
  have hI : interAxes (buildTickerPrices env.ticker_data months
      (extract_holdings holdings).1) =
      some (intersect_axes ((extract_holdings holdings).1.map
        (fun t => datesOf (spec_sampled env.ticker_data t months)))) := by
    rw [hbuild, interAxes_eq_intersect _ hmapne, List.map_map]
    rfl
  have hslen : (List.insertionSort (· ≤ ·)
      (intersect_axes ((extract_holdings holdings).1.map
        (fun t => datesOf (spec_sampled env.ticker_data t months))))).length =
      (intersect_axes ((extract_holdings holdings).1.map
        (fun t => datesOf (spec_sampled env.ticker_data t months)))).length :=
    List.length_insertionSort _ _
  have hkept_sub : ∀ d ∈ (List.insertionSort (· ≤ ·)
        (intersect_axes ((extract_holdings holdings).1.map
          (fun t => datesOf (spec_sampled env.ticker_data t months))))).drop
        ((List.insertionSort (· ≤ ·)
          (intersect_axes ((extract_holdings holdings).1.map
            (fun t => datesOf (spec_sampled env.ticker_data t months))))).length -
          min (months * 21) (List.insertionSort (· ≤ ·)
            (intersect_axes ((extract_holdings holdings).1.map
              (fun t => datesOf (spec_sampled env.ticker_data t months))))).length),
      ∀ t ∈ (extract_holdings holdings).1,
        ∃ p, lookupA (spec_sampled env.ticker_data t months) d = some p := by
    intro d hd t ht
    have hd1 := List.drop_subset _ _ hd
    have hd2 := ((List.perm_insertionSort _ _).mem_iff).mp hd1
    exact lookupA_isSome_of_mem_datesOf
      (mem_intersect_axes hd2 (datesOf (spec_sampled env.ticker_data t months))
        (List.mem_map_of_mem _ ht))
  have hvals : ∀ d, (∀ t ∈ (extract_holdings holdings).1,
        ∃ p, lookupA (spec_sampled env.ticker_data t months) d = some p) →
      value_at ((extract_holdings holdings).1.map
          (fun t => (t, spec_sampled env.ticker_data t months)))
        (extract_holdings holdings).1 (extract_holdings holdings).2 d =
      spec_value_at env.ticker_data months (extract_holdings holdings).1
        (extract_holdings holdings).2 d := by
    intro d hpres
    unfold value_at spec_value_at
    rw [sum_at_eq_spec env.ticker_data months (extract_holdings holdings).1
      (extract_holdings holdings).2 d (extract_holdings holdings).1 0 (fun _ h => h)]
    dsimp only
    have hpos : 0 < spec_den env.ticker_data months (extract_holdings holdings).2 d
        (extract_holdings holdings).1 0 := by
      rw [ht0]
      apply spec_den_pos
      · exact hpres t0 (by rw [ht0]; exact List.mem_cons_self _ _)
      · exact getD_nonneg hwpos
      · apply getD_pos_of_lt hwpos 0
        rw [hwlen, ht0]
        simp
    rw [if_pos hpos]
  unfold calculate_portfolio_performance
  try dsimp only
  rw [if_neg htne, if_neg htd]
  unfold calculate_weighted_performance
  try dsimp only
  rw [hI]
  try dsimp only
  rw [if_neg (by omega : ¬ (intersect_axes ((extract_holdings holdings).1.map
    (fun t => datesOf (spec_sampled env.ticker_data t months)))).length < 10)]
  try dsimp only
  rw [hbuild]
  have htpos : ¬ min (months * 21) (List.insertionSort (· ≤ ·)
      (intersect_axes ((extract_holdings holdings).1.map
        (fun t => datesOf (spec_sampled env.ticker_data t months))))).length = 0 := by
    rw [hslen]
    omega
  rw [if_neg htpos]
  have hkeptlen : ((List.insertionSort (· ≤ ·)
      (intersect_axes ((extract_holdings holdings).1.map
        (fun t => datesOf (spec_sampled env.ticker_data t months))))).drop
      ((List.insertionSort (· ≤ ·)
        (intersect_axes ((extract_holdings holdings).1.map
          (fun t => datesOf (spec_sampled env.ticker_data t months))))).length -
        min (months * 21) (List.insertionSort (· ≤ ·)
          (intersect_axes ((extract_holdings holdings).1.map
            (fun t => datesOf (spec_sampled env.ticker_data t months))))).length)).length =
      min (months * 21) (List.insertionSort (· ≤ ·)
        (intersect_axes ((extract_holdings holdings).1.map
          (fun t => datesOf (spec_sampled env.ticker_data t months))))).length := by
    rw [List.length_drop]
    omega
  have hkeptne : (List.insertionSort (· ≤ ·)
      (intersect_axes ((extract_holdings holdings).1.map
        (fun t => datesOf (spec_sampled env.ticker_data t months))))).drop
      ((List.insertionSort (· ≤ ·)
        (intersect_axes ((extract_holdings holdings).1.map
          (fun t => datesOf (spec_sampled env.ticker_data t months))))).length -
        min (months * 21) (List.insertionSort (· ≤ ·)
          (intersect_axes ((extract_holdings holdings).1.map
            (fun t => datesOf (spec_sampled env.ticker_data t months))))).length) ≠ [] := by
    intro h0
    rw [h0] at hkeptlen
    exact htpos hkeptlen.symm
  rw [if_neg (by
    rw [List.map_eq_nil_iff]
    exact hkeptne)]
  have hmapvals := List.map_congr_left
    (fun d hd => hvals d (hkept_sub d hd))
  rw [hmapvals]
  constructor
  · unfold spec_composite_dates
    rfl
  · unfold spec_composite_values spec_composite_dates normalize_to_100
    rfl

/-! ## Claim C10: scaling all weights leaves dates and index values unchanged -/

/-- Multiply every holding's raw (percentage) weight by the same constant. -/
def scale_holdings (c : ℚ) (hs : List Holding) : List Holding :=
  hs.map (fun h => ⟨h.ticker, c * h.weight, h.country⟩)

theorem extract_holdings_scale (c : ℚ) (hc : 0 < c) (hs : List Holding) :
    extract_holdings (scale_holdings c hs) =
      ((extract_holdings hs).1, (extract_holdings hs).2.map (fun w => c * w)) := by
  induction hs with
  | nil => rfl
  | cons h rest ih =>
    unfold scale_holdings at ih ⊢
    rw [List.map_cons]
    unfold extract_holdings
    dsimp only
    cases h.ticker with
    | none => exact ih
    | some t =>
      dsimp only
      by_cases hcond : t ≠ "" ∧ 0 < h.weight
      · rw [if_pos (show t ≠ "" ∧ 0 < c * h.weight from
          ⟨hcond.1, (mul_pos_iff_of_pos_left hc).mpr hcond.2⟩), if_pos hcond, ih]
        rw [List.map_cons, mul_div_assoc]
      · rw [if_neg (fun hx => hcond ⟨hx.1, (mul_pos_iff_of_pos_left hc).mp hx.2⟩),
          if_neg hcond]
        exact ih

/-- Final branch of the weighted computation under weight scaling: on a kept
date list contained in every stored series, the emitted dates and index values
are unchanged (the per-date total weight is constant across such dates, so
either every date's value is unchanged, or every value scales by `c` and the
normalisation divides it out). -/
theorem scaled_branch_eq (env : Env) (months : ℕ) (tp : List (String × PriceSeries))
    (T : List String) (W : List ℚ) (c : ℚ) (hc : 0 < c) (kept : List Date)
    (hpres : ∀ d ∈ kept, ∀ t s, lookupA tp t = some s → ∃ p, lookupA s d = some p) :
    ((if kept.map (value_at tp T (W.map (fun w => c * w))) = []
      then generate_fallback_data env months
      else ⟨kept, normalize_to_100 (kept.map (value_at tp T (W.map (fun w => c * w)))),
            (kept.map (value_at tp T (W.map (fun w => c * w)))).map round2⟩ : PerfData).dates =
      ((if kept.map (value_at tp T W) = []
        then generate_fallback_data env months
        else ⟨kept, normalize_to_100 (kept.map (value_at tp T W)),
              (kept.map (value_at tp T W)).map round2⟩ : PerfData)).dates) ∧
    ((if kept.map (value_at tp T (W.map (fun w => c * w))) = []
      then generate_fallback_data env months
      else ⟨kept, normalize_to_100 (kept.map (value_at tp T (W.map (fun w => c * w)))),
            (kept.map (value_at tp T (W.map (fun w => c * w)))).map round2⟩ : PerfData).index_values =
      ((if kept.map (value_at tp T W) = []
        then generate_fallback_data env months
        else ⟨kept, normalize_to_100 (kept.map (value_at tp T W)),
              (kept.map (value_at tp T W)).map round2⟩ : PerfData)).index_values) := by
  by_cases hD : 0 < den_all tp W T 0
  · have hveq : ∀ d ∈ kept,
        value_at tp T (W.map (fun w => c * w)) d = value_at tp T W d := by
      intro d hd
      unfold value_at
      dsimp only
      rw [sum_at_scale tp W c d T 0]
      dsimp only
      rw [sum_at_snd_eq_den_all tp W d (hpres d hd) T 0]
      rw [if_pos ((mul_pos_iff_of_pos_left hc).mpr hD), if_pos hD,
        mul_div_mul_left _ _ (ne_of_gt hc)]
    rw [List.map_congr_left hveq]
    exact ⟨rfl, rfl⟩
  · have hveq : ∀ d ∈ kept,
        value_at tp T (W.map (fun w => c * w)) d = c * value_at tp T W d := by
      intro d hd
      unfold value_at
      dsimp only
      rw [sum_at_scale tp W c d T 0]
      dsimp only
      rw [sum_at_snd_eq_den_all tp W d (hpres d hd) T 0]
      rw [if_neg (fun hx => hD ((mul_pos_iff_of_pos_left hc).mp hx)), if_neg hD]
    rw [List.map_congr_left hveq]
    rw [show kept.map (fun d => c * value_at tp T W d) =
        (kept.map (value_at tp T W)).map (fun v => c * v) by
      rw [List.map_map]; rfl]
    by_cases hk : kept.map (value_at tp T W) = []
    · rw [hk]
      simp
    · have hk' : ¬ (kept.map (value_at tp T W)).map (fun v => c * v) = [] := by
        rw [List.map_eq_nil_iff]
        exact hk
      rw [if_neg hk', if_neg hk]
      refine ⟨rfl, ?_⟩
      dsimp only
      unfold normalize_to_100
      rw [headD_map_mul, List.map_map]
      apply List.map_congr_left
      intro v hv
      dsimp only [Function.comp]
      rw [mul_div_mul_left _ _ (ne_of_gt hc)]

/-- C10: multiplying every holding's weight by the same positive constant
leaves both the dates and the index values of
`calculate_portfolio_performance` unchanged: each date's composite value is
divided by the sum of the weights present at that date and the series is then
normalised by its first value, so only relative weights matter — in
particular, the percentage-to-fraction division by 100 at ingestion has no
effect on the returned dates or index values. -/
theorem c10_weight_scaling_invariance (env : Env) (holdings : List Holding)
    (months : ℕ) (c : ℚ) (hc : 0 < c) :
    (calculate_portfolio_performance env (scale_holdings c holdings) months).dates =
      (calculate_portfolio_performance env holdings months).dates ∧
    (calculate_portfolio_performance env (scale_holdings c holdings) months).index_values =
      (calculate_portfolio_performance env holdings months).index_values := by
  have hex := extract_holdings_scale c hc holdings
  unfold calculate_portfolio_performance
  rw [hex]
  dsimp only
  by_cases ht : (extract_holdings holdings).1 = []
  · rw [if_pos ht, if_pos ht]; exact ⟨rfl, rfl⟩
  rw [if_neg ht, if_neg ht]
  by_cases htd : env.ticker_data = []
  · rw [if_pos htd, if_pos htd]; exact ⟨rfl, rfl⟩
  rw [if_neg htd, if_neg htd]
  unfold calculate_weighted_performance
  dsimp only
  cases hI : interAxes (buildTickerPrices env.ticker_data months
      (extract_holdings holdings).1) with
  | none => exact ⟨rfl, rfl⟩
  | some ds =>
    dsimp only
    by_cases hlen : ds.length < 10
    · rw [if_pos hlen, if_pos hlen]; exact ⟨rfl, rfl⟩
    rw [if_neg hlen, if_neg hlen]
    have htp : buildTickerPrices env.ticker_data months
        (extract_holdings holdings).1 ≠ [] := by
      intro h0
      rw [h0] at hI
      cases hI
    have hds : ds = intersect_axes ((buildTickerPrices env.ticker_data months
        (extract_holdings holdings).1).map (fun p => datesOf p.2)) := by
      rw [interAxes_eq_intersect _ htp] at hI
      exact (Option.some.inj hI).symm
    by_cases htarget : min (months * 21) (List.insertionSort (· ≤ ·) ds).length = 0
    · rw [if_pos htarget]
      apply scaled_branch_eq env months _ _ _ c hc
      intro d hd t s hl
      have hd2 := ((List.perm_insertionSort _ _).mem_iff).mp hd
      rw [hds] at hd2
      exact lookupA_isSome_of_mem_datesOf
        (mem_intersect_axes hd2 (datesOf s) (List.mem_map_of_mem _ (lookupA_mem hl)))
    · rw [if_neg htarget]
      apply scaled_branch_eq env months _ _ _ c hc
      intro d hd t s hl
      have hd1 := List.drop_subset _ _ hd
      have hd2 := ((List.perm_insertionSort _ _).mem_iff).mp hd1
      rw [hds] at hd2
      exact lookupA_isSome_of_mem_datesOf
        (mem_intersect_axes hd2 (datesOf s) (List.mem_map_of_mem _ (lookupA_mem hl)))

/-- Concrete fetch environment for the C1 witness: two tickers with identical
10-date axes. -/
def c1ExEnv : Env :=
  ⟨[("A", [(0, 2), (1, 2), (2, 2), (3, 2), (4, 2), (5, 2), (6, 2), (7, 2), (8, 2), (9, 2)]),
    ("B", [(0, 4), (1, 4), (2, 4), (3, 4), (4, 4), (5, 4), (6, 4), (7, 4), (8, 4), (9, 4)])],
   none, 0, fun _ => 0, fun _ => 0⟩

/-- Concrete holdings (60/40) for the C1 witness. -/
def c1ExHoldings : List Holding :=
  [⟨some "A", 60, some "US"⟩, ⟨some "B", 40, some "US"⟩]

/-- Witness for C1 at the concrete 60/40 two-ticker portfolio. -/
theorem c1_composite_refinement_witness :
    (calculate_portfolio_performance c1ExEnv c1ExHoldings 1).dates =
      spec_composite_dates c1ExEnv.ticker_data (extract_holdings c1ExHoldings).1 1 ∧
    (calculate_portfolio_performance c1ExEnv c1ExHoldings 1).index_values =
      spec_composite_values c1ExEnv.ticker_data (extract_holdings c1ExHoldings).1
        (extract_holdings c1ExHoldings).2 1 :=
  c1_composite_refinement c1ExEnv c1ExHoldings 1 (by decide)
    (by with_unfolding_all decide) (by with_unfolding_all decide)

/-- Witness for C10: scaling the weights by 3 at a concrete input. -/
theorem c10_weight_scaling_invariance_witness :
    (calculate_portfolio_performance ⟨[], none, 0, fun _ => 0, fun _ => 0⟩
        (scale_holdings 3 [⟨some "A", 50, some "US"⟩]) 1).dates =
      (calculate_portfolio_performance ⟨[], none, 0, fun _ => 0, fun _ => 0⟩
        [⟨some "A", 50, some "US"⟩] 1).dates ∧
    (calculate_portfolio_performance ⟨[], none, 0, fun _ => 0, fun _ => 0⟩
        (scale_holdings 3 [⟨some "A", 50, some "US"⟩]) 1).index_values =
      (calculate_portfolio_performance ⟨[], none, 0, fun _ => 0, fun _ => 0⟩
        [⟨some "A", 50, some "US"⟩] 1).index_values :=
  c10_weight_scaling_invariance ⟨[], none, 0, fun _ => 0, fun _ => 0⟩
    [⟨some "A", 50, some "US"⟩] 1 3 (by with_unfolding_all decide)
